import Mathlib

/-!
Verification development for the fuzzball.js scoring engine
(src/fuzzball.js).  Strings are modelled as Lean `String`s viewed as
sequences of Unicode code points, numbers as `ℤ`/`ℚ` (the JS arithmetic
here is exact on the values involved), and the option bag as a record.
Helpers that live outside src/ (lib/utils.js, lib/leven.js, and the
external difflib and heap packages) are modelled from the spec, as noted
on each definition.
-/

/-- Option bag for the scorers, mirroring the options object of
fuzzball.js after `clone_and_set_option_defaults`.  The field `partFlag`
models `options.partial` (`partial` is a Lean keyword).  The `astral`,
`normalize` and `useCollator` switches are not modelled: all claims
concern the non-astral, non-collator paths. -/
structure ScoreOptions where
  full_process : Bool := true
  force_ascii : Bool := true
  subcost : Option Nat := none
  ratio_alg : Option String := none
  partFlag : Bool := false
  trySimple : Bool := false
  tokens : Option (List String × List String) := none
  proc_sorted : Bool := false
  cutoff : Option ℚ := none
  limit : Option Nat := none
  unsorted : Bool := false

def isAlnumCh (c : Char) : Bool := c.isAlpha || c.isDigit

def isAsciiPrintable (c : Char) : Bool := 32 ≤ c.toNat && c.toNat ≤ 126

/-- Collapse runs of spaces to a single space. -/
def squeezeSp : List Char → List Char
  | [] => []
  | [c] => [c]
  | a :: b :: rest =>
    if a = ' ' && b = ' ' then squeezeSp (b :: rest) else a :: squeezeSp (b :: rest)

def trimSp (l : List Char) : List Char :=
  ((l.dropWhile (fun c => c = ' ')).reverse.dropWhile (fun c => c = ' ')).reverse

/-- Modelled from the spec: the preprocessing collaborator
`preprocess(text, asciiOnly)` (lib/utils.js `full_process`, which is not
under src/): lowercases, collapses non-alphanumeric runs to single
spaces, trims; when `asciiOnly` is set, strips characters outside the
ASCII printable range before whitespace collapsing. -/
def full_process (s : String) (forceAscii : Bool) : String :=
  let l0 := s.toList
  let l1 := if forceAscii then l0.filter isAsciiPrintable else l0
  let l2 := l1.map (fun c => if isAlnumCh c then c.toLower else ' ')
  String.mk (trimSp (squeezeSp l2))

/-- Modelled from the spec: the validation short-circuit predicate
(lib/utils.js `validate`, not under src/) — an operand is valid iff it
is a non-empty string; non-string operands are excluded by typing. -/
def validate (s : String) : Bool := s.length != 0

/-- The `full_process`-if-enabled preprocessing applied by every public
scorer of src/fuzzball.js. -/
def procStr (o : ScoreOptions) (s : String) : String :=
  if o.full_process then full_process s o.force_ascii else s

/-- Fuel-indexed Levenshtein recursion; the fuel only serves structural
termination and `leven` always supplies enough (each step removes at
least one character in total, and the fuel-exhausted value coincides
with the true value on the only reachable such state, two empty
strings). -/
def levenF : Nat → List Char → List Char → Nat → Nat
  | 0, s, t, _ => s.length + t.length
  | _ + 1, [], t, _ => t.length
  | _ + 1, s, [], _ => s.length
  | fuel + 1, a :: s, b :: t, c =>
    if a = b then levenF fuel s t c
    else
      min (levenF fuel s (b :: t) c + 1)
        (min (levenF fuel (a :: s) t c + 1) (levenF fuel s t c + c))

/-- Modelled from the spec: the Distance Engine (lib/leven.js, not under
src/) — minimum-cost edit distance with insertion cost 1, deletion cost
1 and substitution cost `c`, over code points, without the optional
locale collator. -/
def leven (s t : List Char) (c : Nat) : Nat := levenF (s.length + t.length) s t c

/-- JS `Math.round`: round half toward positive infinity. -/
def mathRound (q : ℚ) : ℤ := ⌊q + 1 / 2⌋

/-- The exact value of JS `Math.round(num / den)` for a positive integer
denominator, computed in integer arithmetic so that the kernel can
evaluate it: `round(num/den) = ⌊(2·num + den) / (2·den)⌋`, and `ℤ`
division is floor division for positive divisors.  The bridge to the
real-arithmetic formula is `roundRat_eq`. -/
def roundRat (num : ℤ) (den : ℕ) : ℤ := (2 * num + den) / (2 * (den : ℤ))

/-- Length of the longest common contiguous run starting at the heads of
the two lists. -/
def commonLen : List Char → List Char → Nat
  | a :: as, b :: bs => if a = b then commonLen as bs + 1 else 0
  | _, _ => 0

/-- Size of the matching block starting at positions `p` inside the
windows `[p.1, ahi)` × `[p.2, bhi)`. -/
def kAt (a b : List Char) (ahi bhi : Nat) (p : Nat × Nat) : Nat :=
  min (commonLen (a.drop p.1) (b.drop p.2)) (min (ahi - p.1) (bhi - p.2))

def candPairs (alo ahi blo bhi : Nat) : List (Nat × Nat) :=
  (List.range' alo (ahi - alo)).flatMap
    (fun i => (List.range' blo (bhi - blo)).map (fun j => (i, j)))

def flmStep (a b : List Char) (ahi bhi : Nat) (best : Nat × Nat × Nat) (p : Nat × Nat) :
    Nat × Nat × Nat :=
  if best.2.2 < kAt a b ahi bhi p then (p.1, p.2, kAt a b ahi bhi p) else best

/-- Modelled from the spec: difflib's `find_longest_match` on the slices
`a[alo:ahi]`, `b[blo:bhi]` (the difflib package is external to src/) —
of all maximal matching blocks, the one starting earliest in `a` and,
among those, earliest in `b`; `(alo, blo, 0)` when there is no match. -/
def flm (a b : List Char) (alo ahi blo bhi : Nat) : Nat × Nat × Nat :=
  (candPairs alo ahi blo bhi).foldl (flmStep a b ahi bhi) (alo, blo, 0)

/-- Fuel-indexed recursive block collection of difflib's
`get_matching_blocks`: take the longest match, then recurse on the parts
left of it and right of it.  The fuel only serves termination;
`matchingBlocks` supplies `|a| + |b| + 1`, which is enough since every
recursive call strictly shrinks the sum of the two window widths. -/
def mblocksF : Nat → List Char → List Char → Nat → Nat → Nat → Nat → List (Nat × Nat × Nat)
  | 0, _, _, _, _, _, _ => []
  | fuel + 1, a, b, alo, ahi, blo, bhi =>
    let x := flm a b alo ahi blo bhi
    if x.2.2 = 0 then []
    else
      mblocksF fuel a b alo x.1 blo x.2.1 ++
        x :: mblocksF fuel a b (x.1 + x.2.2) ahi (x.2.1 + x.2.2) bhi

def blockLe (x y : Nat × Nat × Nat) : Bool :=
  decide (x.1 < y.1) ||
    (decide (x.1 = y.1) &&
      (decide (x.2.1 < y.2.1) || (decide (x.2.1 = y.2.1) && decide (x.2.2 ≤ y.2.2))))

def insertBlock (x : Nat × Nat × Nat) : List (Nat × Nat × Nat) → List (Nat × Nat × Nat)
  | [] => [x]
  | y :: ys => if blockLe y x then y :: insertBlock x ys else x :: y :: ys

def sortBlocks (l : List (Nat × Nat × Nat)) : List (Nat × Nat × Nat) :=
  l.foldr insertBlock []

/-- The adjacent-block collapsing pass of difflib's
`get_matching_blocks`. -/
def mergeGo : Nat → Nat → Nat → List (Nat × Nat × Nat) → List (Nat × Nat × Nat)
  | i1, j1, k1, [] => if k1 ≠ 0 then [(i1, j1, k1)] else []
  | i1, j1, k1, (i2, j2, k2) :: rest =>
    if i1 + k1 = i2 ∧ j1 + k1 = j2 then mergeGo i1 j1 (k1 + k2) rest
    else (if k1 ≠ 0 then [(i1, j1, k1)] else []) ++ mergeGo i2 j2 k2 rest

/-- Modelled from the spec: difflib `SequenceMatcher.getMatchingBlocks`
— the sorted, adjacency-collapsed matching blocks, terminated by the
sentinel block `(|a|, |b|, 0)`. -/
def matchingBlocks (a b : List Char) : List (Nat × Nat × Nat) :=
  mergeGo 0 0 0 (sortBlocks (mblocksF (a.length + b.length + 1) a b 0 a.length 0 b.length)) ++
    [(a.length, b.length, 0)]

def blockSizeSum (l : List (Nat × Nat × Nat)) : Nat := (l.map (fun x => x.2.2)).sum

/-- Modelled from the spec: `Math.round(100 * m.ratio())` for difflib's
`SequenceMatcher.ratio()`, which is `2 × (total matched-block length) /
(length a + length b)`; hence the score is `round(200·M / (|a| + |b|))`. -/
def difflibScore (a b : List Char) : ℤ :=
  roundRat (100 * (2 * (blockSizeSum (matchingBlocks a b) : ℤ))) (a.length + b.length)

/-- src/fuzzball.js `_ratio` (lines 529-561, non-astral path). -/
def _ratio (s1 s2 : String) (o : ScoreOptions) : ℤ :=
  if validate s1 = false then 0
  else if validate s2 = false then 0
  else if o.ratio_alg = some "difflib" then difflibScore s1.toList s2.toList
  else
    let c := o.subcost.getD 2
    let d := leven s1.toList s2.toList c
    let lensum := s1.length + s2.length
    roundRat (100 * ((lensum : ℤ) - (d : ℤ))) lensum

/-- src/fuzzball.js `QRatio` (lines 50-69), exported as `ratio`. -/
def QRatio (s1 s2 : String) (o : ScoreOptions) : ℤ :=
  let p1 := procStr o s1
  let p2 := procStr o s2
  if validate p1 = false then 0
  else if validate p2 = false then 0
  else _ratio p1 p2 o

/-- src/fuzzball.js `distance` (lines 29-48, non-astral path); the
default substitution cost here is 1. -/
def distance (s1 s2 : String) (o : ScoreOptions) : Nat :=
  let p1 := procStr o s1
  let p2 := procStr o s2
  leven p1.toList p2.toList (o.subcost.getD 1)

/-- JS `longer.substring(st, en)` for `st ≤ en` (both clamped to the
string length). -/
def jsSubstring (l : List Char) (st en : Nat) : List Char := (l.drop st).take (en - st)

/-- JS `Math.max.apply(null, scores)`; the empty case is unreachable in
`_partial_ratio` because the block list always ends with the sentinel
block. -/
def jsMax : List ℤ → ℤ
  | [] => 0
  | x :: xs => xs.foldl max x

/-- The window of `longer` that src/fuzzball.js `_partial_ratio` aligns
the shorter string against for one matching block `blk = (i, j, k)`:
`long_start = (j - i) > 0 ? (j - i) : 0` (exactly truncated `Nat`
subtraction) and `longer.substring(long_start, long_start +
shorter.length)`. -/
def partialWindow (longer : List Char) (shorterLen : Nat) (blk : Nat × Nat × Nat) :
    List Char :=
  jsSubstring longer (blk.2.1 - blk.1) ((blk.2.1 - blk.1) + shorterLen)

/-- The scan loop of src/fuzzball.js `_partial_ratio` (lines 577-585),
with the longer string passed as its code-point list. -/
def prGo (shorter : String) (longerL : List Char) (o : ScoreOptions) :
    List (Nat × Nat × Nat) → List ℤ → ℤ
  | [], scores => jsMax scores
  | blk :: rest, scores =>
    let r := _ratio shorter (String.mk (partialWindow longerL shorter.length blk)) o
    -- the source test is `r > 99.5`; over the integers r that is exactly `2r > 199`
    if 199 < 2 * r then 100 else prGo shorter longerL o rest (scores ++ [r])

/-- src/fuzzball.js `_partial_ratio` (lines 563-586). -/
def _partial_ratio (s1 s2 : String) (o : ScoreOptions) : ℤ :=
  if validate s1 = false then 0
  else if validate s2 = false then 0
  else
    let shorter := if s1.length ≤ s2.length then s1 else s2
    let longer := if s1.length ≤ s2.length then s2 else s1
    prGo shorter longer.toList o (matchingBlocks shorter.toList longer.toList) []

/-- src/fuzzball.js `partial_ratio` (lines 71-90). -/
def partial_ratio (s1 s2 : String) (o : ScoreOptions) : ℤ :=
  let p1 := procStr o s1
  let p2 := procStr o s2
  if validate p1 = false then 0
  else if validate p2 = false then 0
  else _partial_ratio p1 p2 o

def isWsCh (c : Char) : Bool := c = ' ' || c = '\t' || c = '\n' || c = '\r'

/-- Split into maximal runs of non-whitespace (`str.match(/\S+/g)`). -/
def splitWsGo : List Char → List Char → List (List Char)
  | [], cur => if cur.isEmpty then [] else [cur.reverse]
  | c :: rest, cur =>
    if isWsCh c then
      (if cur.isEmpty then splitWsGo rest [] else cur.reverse :: splitWsGo rest [])
    else splitWsGo rest (c :: cur)

def splitWs (l : List Char) : List String := (splitWsGo l []).map String.mk

def dedupGo : List String → List String → List String
  | _, [] => []
  | seen, x :: xs => if seen.contains x then dedupGo seen xs else x :: dedupGo (x :: seen) xs

/-- First-occurrence deduplication (lodash `_uniq`). -/
def dedupStr (l : List String) : List String := dedupGo [] l

/-- Modelled from the spec: utils.js `tokenize` (not under src/) — split
on whitespace runs, discarding empties, keeping each distinct token
once. -/
def tokenize (s : String) : List String := dedupStr (splitWs s.toList)

/-- Lexicographic comparison of code-point sequences (the JS default
string sort order). -/
def lexLe : List Char → List Char → Bool
  | [], _ => true
  | _ :: _, [] => false
  | x :: xs, y :: ys => if x = y then lexLe xs ys else decide (x < y)

def strLe (a b : String) : Bool := lexLe a.toList b.toList

def insertStr (x : String) : List String → List String
  | [] => [x]
  | y :: ys => if strLe y x then y :: insertStr x ys else x :: y :: ys

/-- Insertion sort by `strLe` (JS `Array.prototype.sort()` on strings). -/
def isortStr (l : List String) : List String := l.foldr insertStr []

/-- `.sort().join(" ")`. -/
def sortJoin (ts : List String) : String := String.intercalate " " (isortStr ts)

/-- Modelled from the spec: utils.js `process_and_sort` (not under src/)
— tokens sorted lexicographically and rejoined with single spaces. -/
def process_and_sort (s : String) : String := sortJoin (splitWs s.toList)

def trimStr (s : String) : String := String.mk (trimSp s.toList)

/-- src/fuzzball.js `_token_set` (lines 490-526). -/
def _token_set (str1 str2 : String) (o : ScoreOptions) : ℤ :=
  let tokens1 := match o.tokens with | none => tokenize str1 | some tp => tp.1
  let tokens2 := match o.tokens with | none => tokenize str2 | some tp => tp.2
  let intersection := tokens1.filter (fun t => tokens2.contains t)
  let diff1to2 := tokens1.filter (fun t => !(tokens2.contains t))
  let diff2to1 := tokens2.filter (fun t => !(tokens1.contains t))
  let sorted_sect := sortJoin intersection
  let sorted_1to2 := sortJoin diff1to2
  let sorted_2to1 := sortJoin diff2to1
  let combined_1to2 := sorted_sect ++ " " ++ sorted_1to2
  let combined_2to1 := sorted_sect ++ " " ++ sorted_2to1
  let sect := trimStr sorted_sect
  let c12 := trimStr combined_1to2
  let c21 := trimStr combined_2to1
  let rf := if o.partFlag then _partial_ratio else _ratio
  jsMax ([rf sect c12 o, rf sect c21 o, rf c12 c21 o] ++
    (if o.trySimple then [rf str1 str2 o] else []))

/-- src/fuzzball.js `token_set_ratio` (lines 92-111). -/
def token_set_ratio (s1 s2 : String) (o : ScoreOptions) : ℤ :=
  let p1 := procStr o s1
  let p2 := procStr o s2
  if validate p1 = false then 0
  else if validate p2 = false then 0
  else _token_set p1 p2 o

/-- src/fuzzball.js `partial_token_set_ratio` (lines 113-133). -/
def partial_token_set_ratio (s1 s2 : String) (o : ScoreOptions) : ℤ :=
  let p1 := procStr o s1
  let p2 := procStr o s2
  if validate p1 = false then 0
  else if validate p2 = false then 0
  else _token_set p1 p2 { o with partFlag := true }

/-- src/fuzzball.js `token_sort_ratio` (lines 135-158). -/
def token_sort_ratio (s1 s2 : String) (o : ScoreOptions) : ℤ :=
  let p1 := procStr o s1
  let p2 := procStr o s2
  if validate p1 = false then 0
  else if validate p2 = false then 0
  else
    let q1 := if o.proc_sorted then p1 else process_and_sort p1
    let q2 := if o.proc_sorted then p2 else process_and_sort p2
    _ratio q1 q2 o

/-- src/fuzzball.js `partial_token_sort_ratio` (lines 160-184). -/
def partial_token_sort_ratio (s1 s2 : String) (o : ScoreOptions) : ℤ :=
  let p1 := procStr o s1
  let p2 := procStr o s2
  if validate p1 = false then 0
  else if validate p2 = false then 0
  else
    let q1 := if o.proc_sorted then p1 else process_and_sort p1
    let q2 := if o.proc_sorted then p2 else process_and_sort p2
    _partial_ratio q1 q2 { o with partFlag := true }

/-- src/fuzzball.js `WRatio` (lines 186-229).  The length-ratio tests
`len_ratio < 1.5` and `len_ratio > 8` are written exactly over the
integers (`2·max < 3·min`, `8·min < max`), and
`Math.round(Math.max(base, partial·s, ptsor·0.95·s, ptser·0.95·s))` is
computed exactly at denominator 200 (scale 0.9 ↦ 180, 0.6 ↦ 120,
0.95·0.9 ↦ 171, 0.95·0.6 ↦ 114, 0.95 ↦ 190). -/
def WRatio (s1 s2 : String) (o0 : ScoreOptions) : ℤ :=
  let p1 := procStr o0 s1
  let p2 := procStr o0 s2
  let o := { o0 with full_process := false }
  if validate p1 = false then 0
  else if validate p2 = false then 0
  else
    let base := _ratio p1 p2 o
    let lmax := max p1.length p2.length
    let lmin := min p1.length p2.length
    let try_partial := ¬ (2 * lmax < 3 * lmin)
    let scale60 := 8 * lmin < lmax
    if try_partial then
      let pscale : ℤ := if scale60 then 120 else 180
      let upscale : ℤ := if scale60 then 114 else 171
      let p := _partial_ratio p1 p2 o * pscale
      let ptsor := partial_token_sort_ratio p1 p2 o * upscale
      let ptser := partial_token_set_ratio p1 p2 o * upscale
      roundRat (max (200 * base) (max p (max ptsor ptser))) 200
    else
      let tsor := token_sort_ratio p1 p2 o * 190
      let tser := token_set_ratio p1 p2 o * 190
      roundRat (max (200 * base) (max tsor tser)) 200

/-- The scorer argument of `extract`, as an explicit enumeration of the
builtin scorer identities that src/fuzzball.js recognises by function
name (`isCustomFunc`), plus opaque custom scorers. -/
inductive ScorerKind where
  | baseRatio
  | partialRatioKind
  | tokenSortKind
  | partialTokenSortKind
  | tokenSetKind
  | partialTokenSetKind
  | customKind (f : String → String → ScoreOptions → ℤ)

def scorerApply : ScorerKind → String → String → ScoreOptions → ℤ
  | ScorerKind.baseRatio => QRatio
  | ScorerKind.partialRatioKind => partial_ratio
  | ScorerKind.tokenSortKind => token_sort_ratio
  | ScorerKind.partialTokenSortKind => partial_token_sort_ratio
  | ScorerKind.tokenSetKind => token_set_ratio
  | ScorerKind.partialTokenSetKind => partial_token_set_ratio
  | ScorerKind.customKind f => f

def isCustomKind : ScorerKind → Bool
  | ScorerKind.customKind _ => true
  | _ => false

def isTsortKind : ScorerKind → Bool
  | ScorerKind.tokenSortKind => true
  | ScorerKind.partialTokenSortKind => true
  | _ => false

def isTsetKind : ScorerKind → Bool
  | ScorerKind.tokenSetKind => true
  | ScorerKind.partialTokenSetKind => true
  | _ => false

/-- A caller-supplied capability slot: absent, a callable, or a supplied
value that is not callable (the JS `typeof x !== "function"` case). -/
inductive Supplied (α : Type) where
  | absent
  | given (v : α)
  | notCallable

/-- The effective cutoff of `extract` (src/fuzzball.js line 272):
`if (!options.cutoff || typeof options.cutoff !== "number") cutoff = -1`
— a supplied cutoff of `0` is falsy in JS and is replaced by `-1`. -/
def effCutoff : Option ℚ → ℚ
  | none => -1
  | some c => if c = 0 then -1 else c

/-- The score `extract` computes for one candidate `value` (the body of
the `_forEach` loop, src/fuzzball.js lines 305-337, for string
candidates, which carry no `proc_sorted`/`tokens` fields). -/
def extractScore (query : String) (procF : String → String) (scorerK : ScorerKind)
    (o : ScoreOptions) (value : String) : ℤ :=
  let prep := fun (s : String) => if o.full_process then full_process s o.force_ascii else s
  let isCus := isCustomKind scorerK
  let query1 := if isCus then query else prep query
  let o2 := if isCus then o else { o with full_process := false }
  if isTsortKind scorerK then
    let psq := process_and_sort query1
    let mych := process_and_sort (prep (procF value))
    scorerApply scorerK psq mych { o2 with proc_sorted := true, tokens := none }
  else if isTsetKind scorerK then
    -- the dummy string "x" of source line 318 is only kept for candidates
    -- carrying a precomputed `.tokens` field; plain string candidates reach
    -- the else branch of line 320, which passes the processed choice
    let qtok := tokenize query1
    let mych := prep (procF value)
    scorerApply scorerK query1 mych
      { o2 with proc_sorted := false, tokens := some (qtok, tokenize mych) }
  else if isCus then
    scorerApply scorerK query (procF value) { o with proc_sorted := false, tokens := none }
  else
    let mych := prep (procF value)
    scorerApply scorerK query1 mych { o2 with proc_sorted := false, tokens := none }

/-- The retained, scan-ordered results of `extract`: one entry
`(candidate, score, index)` per candidate whose score is strictly above
the effective cutoff. -/
def extractCore (query : String) (choices : List String) (procF : String → String)
    (scorerK : ScorerKind) (o : ScoreOptions) : List (String × ℤ × Nat) :=
  (choices.enum.map (fun kv => (kv.2, extractScore query procF scorerK o kv.2, kv.1))).filter
    (fun r => (r.2.1 : ℚ) > effCutoff o.cutoff)

def insertResDesc (x : String × ℤ × Nat) :
    List (String × ℤ × Nat) → List (String × ℤ × Nat)
  | [] => [x]
  | y :: ys => if x.2.1 < y.2.1 then y :: insertResDesc x ys else x :: y :: ys

/-- Stable sort by descending score
(`results.sort(function(a,b){return b[1]-a[1];})`). -/
def sortResDesc (l : List (String × ℤ × Nat)) : List (String × ℤ × Nat) :=
  l.foldr insertResDesc []

/-- Modelled from the spec: `Heap.nlargest(results, limit, cmp)` (the
heap package is external to src/) — the top `limit` entries by score in
descending order, ties broken arbitrarily. -/
def nlargestModel (n : Nat) (l : List (String × ℤ × Nat)) : List (String × ℤ × Nat) :=
  (sortResDesc l).take n

/-- src/fuzzball.js `extract` (lines 231-350), for an array of string
choices. -/
def extract (query : String) (choices : List String) (procArg : Supplied (String → String))
    (scorerArg : Supplied ScorerKind) (o : ScoreOptions) :
    Except String (List (String × ℤ × Nat)) :=
  if choices.length = 0 then Except.error "No choices"
  else
    match procArg with
    | Supplied.notCallable => Except.error "Invalid Processor"
    | _ =>
      match scorerArg with
      | Supplied.notCallable => Except.error "Invalid Scorer"
      | _ =>
        let procF := match procArg with | Supplied.given f => f | _ => fun x => x
        let scorerK := match scorerArg with | Supplied.given k => k | _ => ScorerKind.baseRatio
        let res := extractCore query choices procF scorerK o
        let limited := match o.limit with
          | some n => decide (0 < n) && decide (n < choices.length)
          | none => false
        Except.ok
          (if limited && !o.unsorted then nlargestModel (o.limit.getD 0) res
           else if !o.unsorted then sortResDesc res
           else res)

/-! ### Spec-side definitions

The following definitions restate, in the spec's own words, the scores
that the claims describe; the claim theorems compare them with the
definitions embedded from the source above. -/

/-- The ratio score as the spec states it: 0 when either input, after
preprocessing when `full_process` is enabled, is empty (non-strings are
excluded by typing); otherwise `round(100 × (lenSum − distance) /
lenSum)` with code-point lengths and substitution cost 2 when no
subcost is supplied. -/
def ratioSpec (s1 s2 : String) (o : ScoreOptions) : ℤ :=
  let a := procStr o s1
  let b := procStr o s2
  if a.length = 0 ∨ b.length = 0 then 0
  else
    let lensum := a.length + b.length
    let d := leven a.toList b.toList (o.subcost.getD 2)
    mathRound (100 * (((lensum : ℚ) - (d : ℚ)) / (lensum : ℚ)))

/-- The block-matching ratio as the spec states it: `round(100 × 2 ×
(total matched-block length) / lenSum)` on the preprocessed inputs,
after the same validation short-circuit. -/
def blockMatchSpec (s1 s2 : String) (o : ScoreOptions) : ℤ :=
  let a := procStr o s1
  let b := procStr o s2
  if a.length = 0 ∨ b.length = 0 then 0
  else
    mathRound (100 * ((2 * (blockSizeSum (matchingBlocks a.toList b.toList) : ℚ)) /
      ((a.length : ℚ) + (b.length : ℚ))))

/-- The partial-ratio score as the (amended) claim states it: designate
shorter and longer, take the matching blocks, score the shorter string
against each block's window of the longer one (window start
`max(0, j − i)`, window length `min(length shorter, length longer −
start)`), return 100 if any window scores above 99.5 and the maximum of
the window scores otherwise. -/
def partialSpec (s1 s2 : String) (o : ScoreOptions) : ℤ :=
  let p1 := procStr o s1
  let p2 := procStr o s2
  let shorter := if p1.length ≤ p2.length then p1 else p2
  let longer := if p1.length ≤ p2.length then p2 else p1
  let rs := (matchingBlocks shorter.toList longer.toList).map
    (fun blk => _ratio shorter (String.mk (partialWindow longer.toList shorter.length blk)) o)
  if rs.any (fun r => decide (199 < 2 * r)) then 100 else jsMax rs

/-- The token-set score as the claim states it: build
`sortedIntersection`, `sortedIntersection ++ " " ++ sortedDiffAOnly`
and `sortedIntersection ++ " " ++ sortedDiffBOnly` (each trimmed) from
the two token sets of the preprocessed inputs, score the three pairings
with the selected ratio function (full or partial) and return the
maximum of the three scores. -/
def tokenSetSpec (s1 s2 : String) (o : ScoreOptions) : ℤ :=
  let t1 := tokenize (procStr o s1)
  let t2 := tokenize (procStr o s2)
  let sect := sortJoin (t1.filter (fun t => t2.contains t))
  let combinedA := trimStr (sect ++ " " ++ sortJoin (t1.filter (fun t => !(t2.contains t))))
  let combinedB := trimStr (sect ++ " " ++ sortJoin (t2.filter (fun t => !(t1.contains t))))
  let sectT := trimStr sect
  let rf := if o.partFlag then _partial_ratio else _ratio
  max (max (rf sectT combinedA o) (rf sectT combinedB o)) (rf combinedA combinedB o)

/-! ### Basic lemmas -/

theorem levenF_nil_left (f : Nat) (t : List Char) (c : Nat) : levenF f [] t c = t.length := by
  cases f <;> simp [levenF]

theorem levenF_nil_right (f : Nat) (s : List Char) (c : Nat) : levenF f s [] c = s.length := by
  cases f <;> cases s <;> simp [levenF]

theorem levenF_irrel : ∀ (n f g : Nat) (s t : List Char) (c : Nat),
    s.length + t.length ≤ n → n ≤ f → n ≤ g → levenF f s t c = levenF g s t c := by
  intro n
  induction n with
  | zero =>
    intro f g s t c hle _ _
    have hs : s = [] := by
      cases s with
      | nil => rfl
      | cons a as => simp at hle
    subst hs
    rw [levenF_nil_left, levenF_nil_left]
  | succ n ih =>
    intro f g s t c hle hf hg
    cases s with
    | nil => rw [levenF_nil_left, levenF_nil_left]
    | cons a s =>
      cases t with
      | nil => rw [levenF_nil_right, levenF_nil_right]
      | cons b t =>
        obtain ⟨f, rfl⟩ : ∃ m, f = m + 1 := ⟨f - 1, by omega⟩
        obtain ⟨g, rfl⟩ : ∃ m, g = m + 1 := ⟨g - 1, by omega⟩
        simp only [List.length_cons] at hle
        simp only [levenF]
        rw [ih f g s t c (by omega) (by omega) (by omega),
          ih f g s (b :: t) c (by simp; omega) (by omega) (by omega),
          ih f g (a :: s) t c (by simp; omega) (by omega) (by omega)]

theorem leven_eq_levenF (f : Nat) (s t : List Char) (c : Nat)
    (h : s.length + t.length ≤ f) : leven s t c = levenF f s t c :=
  levenF_irrel (s.length + t.length) (s.length + t.length) f s t c le_rfl le_rfl h

theorem leven_cons_cons (a b : Char) (s t : List Char) (c : Nat) :
    leven (a :: s) (b :: t) c =
      if a = b then leven s t c
      else
        min (leven s (b :: t) c + 1) (min (leven (a :: s) t c + 1) (leven s t c + c)) := by
  show levenF ((a :: s).length + (b :: t).length) (a :: s) (b :: t) c = _
  have hlen : (a :: s).length + (b :: t).length = (s.length + t.length + 1) + 1 := by
    simp; omega
  rw [hlen]
  simp only [levenF]
  rw [← leven_eq_levenF (s.length + t.length + 1) s t c (by omega),
    ← leven_eq_levenF (s.length + t.length + 1) s (b :: t) c (by simp; omega),
    ← leven_eq_levenF (s.length + t.length + 1) (a :: s) t c (by simp; omega)]

theorem leven_self (t : List Char) (c : Nat) : leven t t c = 0 := by
  induction t with
  | nil => rfl
  | cons a t ih => rw [leven_cons_cons]; simp [ih]

theorem roundRat_eq (num : ℤ) (den : ℕ) (h : 0 < den) :
    roundRat num den = mathRound ((num : ℚ) / (den : ℚ)) := by
  have hd0 : ((den : ℚ)) ≠ 0 := Nat.cast_ne_zero.mpr h.ne'
  have key : (num : ℚ) / (den : ℚ) + 1 / 2 =
      (((2 * num + (den : ℤ)) : ℤ) : ℚ) / (((2 * den : ℕ)) : ℚ) := by
    push_cast
    field_simp
    ring
  unfold mathRound roundRat
  rw [key, Rat.floor_intCast_div_natCast]
  push_cast
  rfl

theorem mathRound_intCast (z : ℤ) : mathRound ((z : ℤ) : ℚ) = z := by
  unfold mathRound
  rw [add_comm, Int.floor_add_int]
  norm_num

theorem mathRound_mono {p q : ℚ} (h : p ≤ q) : mathRound p ≤ mathRound q :=
  Int.floor_le_floor (by linarith)

theorem roundRat_mono {a b : ℤ} (den : ℕ) (hden : 0 < den) (h : a ≤ b) :
    roundRat a den ≤ roundRat b den := by
  unfold roundRat
  exact Int.ediv_le_ediv (by omega) (by omega)

theorem roundRat_cancel (k : ℕ) (b : ℤ) (hk : 0 < k) : roundRat ((k : ℤ) * b) k = b := by
  unfold roundRat
  have hk2 : (2 * (k : ℤ)) ≠ 0 := by omega
  have hrw : 2 * ((k : ℤ) * b) + (k : ℤ) = (k : ℤ) + 2 * (k : ℤ) * b := by ring
  rw [hrw, Int.add_mul_ediv_left _ _ hk2,
    Int.ediv_eq_zero_of_lt (by omega) (by omega), zero_add]

theorem validate_false_iff (s : String) : validate s = false ↔ s.length = 0 := by
  simp [validate]

theorem validate_true_iff (s : String) : validate s = true ↔ s.length ≠ 0 := by
  simp [validate]

theorem ratio_self (p : String) (o : ScoreOptions) (hlen : p.length ≠ 0)
    (halg : ¬ o.ratio_alg = some "difflib") : _ratio p p o = 100 := by
  have hv : ¬ validate p = false := by simp [validate_false_iff, hlen]
  unfold _ratio
  rw [if_neg hv, if_neg hv, if_neg halg]
  simp only [leven_self]
  have hrw : (100 : ℤ) * (((p.length + p.length : ℕ) : ℤ) - ((0 : ℕ) : ℤ)) =
      (((p.length + p.length : ℕ)) : ℤ) * 100 := by push_cast; ring
  rw [hrw, roundRat_cancel _ _ (by omega)]

theorem ratio_le_100 (s1 s2 : String) (o : ScoreOptions)
    (halg : ¬ o.ratio_alg = some "difflib") : _ratio s1 s2 o ≤ 100 := by
  unfold _ratio
  by_cases h1 : validate s1 = false
  · rw [if_pos h1]; omega
  by_cases h2 : validate s2 = false
  · rw [if_neg h1, if_pos h2]; omega
  rw [if_neg h1, if_neg h2, if_neg halg]
  have hl1 : s1.length ≠ 0 := by
    have hv1 : validate s1 = true := by
      cases hval : validate s1 with
      | false => exact absurd hval h1
      | true => rfl
    exact (validate_true_iff s1).mp hv1
  have hL : 0 < s1.length + s2.length := by omega
  calc roundRat (100 * (((s1.length + s2.length : ℕ) : ℤ) -
        (leven s1.toList s2.toList (o.subcost.getD 2) : ℤ))) (s1.length + s2.length)
      ≤ roundRat (((s1.length + s2.length : ℕ) : ℤ) * 100) (s1.length + s2.length) := by
        apply roundRat_mono _ hL
        have : (0 : ℤ) ≤ (leven s1.toList s2.toList (o.subcost.getD 2) : ℤ) := by positivity
        nlinarith
    _ = 100 := roundRat_cancel _ _ hL

/-! ### Claim C4 -/

/-- C4 counterexample: under default options `ratio("", "") = 0`, not
100 — the validation short-circuit fires before any formula, so
`ratio(s, s) = 100` fails for strings whose preprocessed form is
empty. -/
theorem C4_counterexample : QRatio "" "" {} = 0 ∧ (0 : ℤ) ≠ 100 :=
  ⟨by decide, by decide⟩

/-- C4 (amended): for every string `s`, `distance(s, s) = 0` under
default options, and `ratio(s, s) = 100` whenever the preprocessed form
of `s` is a valid non-empty string (otherwise the validation
short-circuit returns 0). -/
theorem C4_self_similarity (s : String) :
    distance s s {} = 0 ∧
      (validate (full_process s true) = true → QRatio s s {} = 100) := by
  constructor
  · unfold distance
    exact leven_self _ _
  · intro h
    have hlen : (full_process s true).length ≠ 0 := (validate_true_iff _).mp h
    have hq : QRatio s s {} = _ratio (full_process s true) (full_process s true) {} := by
      unfold QRatio procStr
      simp [h]
    rw [hq]
    exact ratio_self _ _ hlen (by decide)

/-- C4 witness: the amended claim at `s = "ab"`. -/
theorem C4_witness :
    validate (full_process "ab" true) = true ∧
      distance "ab" "ab" {} = 0 ∧ QRatio "ab" "ab" {} = 100 :=
  ⟨by decide, (C4_self_similarity "ab").1, (C4_self_similarity "ab").2 (by decide)⟩

/-! ### Claim C5 -/

/-- C5 counterexample: with `ratio_alg := "block-match"` (the selector
value the claim names) and a supplied subcost of 1, the code still runs
the edit-distance formula and returns 50 for `("a", "b")`, while the
block-matching score of that pair is 0 — the code's selector value for
the alternate algorithm is `"difflib"`, not `"block-match"`. -/
theorem C5_counterexample :
    QRatio "a" "b" { ratio_alg := some "block-match", subcost := some 1 } = 50 ∧
      difflibScore "a".toList "b".toList = 0 ∧ (50 : ℤ) ≠ 0 :=
  ⟨by decide, by decide, by decide⟩

/-- C5 (amended): the configuration value selecting the block-matching
backend is `"difflib"`; when `ratio_alg = "difflib"`, ratio returns
`round(100 × 2 × totalMatchedBlockLength / lenSum)` on the preprocessed
inputs (with the usual validation short-circuit), and any other selector
value leaves the edit-distance formula in force. -/
theorem C5_difflib_alg (s1 s2 : String) (o : ScoreOptions)
    (halg : o.ratio_alg = some "difflib") : QRatio s1 s2 o = blockMatchSpec s1 s2 o := by
  unfold QRatio blockMatchSpec _ratio
  by_cases h1 : (procStr o s1).length = 0
  · simp [validate_false_iff, h1]
  by_cases h2 : (procStr o s2).length = 0
  · simp [validate_false_iff, h1, h2]
  · simp [validate_false_iff, h1, h2, halg]
    unfold difflibScore
    have e1 : (procStr o s1).data.length = (procStr o s1).length := rfl
    have e2 : (procStr o s2).data.length = (procStr o s2).length := rfl
    have f1 : (procStr o s1).toList.length = (procStr o s1).length := rfl
    have f2 : (procStr o s2).toList.length = (procStr o s2).length := rfl
    rw [roundRat_eq _ _ (by
      show 0 < (procStr o s1).toList.length + (procStr o s2).toList.length
      omega)]
    congr 1
    push_cast
    simp only [e1, e2]
    ring

/-- C5 witness: the amended claim at `("ab", "ba")` with
`ratio_alg = "difflib"`. -/
theorem C5_witness :
    QRatio "ab" "ba" { ratio_alg := some "difflib" } =
      blockMatchSpec "ab" "ba" { ratio_alg := some "difflib" } :=
  C5_difflib_alg "ab" "ba" { ratio_alg := some "difflib" } rfl

/-! ### Claim C1 -/

/-- C1: under the default (edit-distance) algorithm selector, `ratio`
returns 0 when either preprocessed input is empty, and otherwise
`round(100 × (lenSum − distance) / lenSum)` with code-point lengths and
substitution cost `subcost` (default 2). -/
theorem C1_ratio_formula (s1 s2 : String) (o : ScoreOptions) (halg : o.ratio_alg = none) :
    QRatio s1 s2 o = ratioSpec s1 s2 o := by
  unfold QRatio ratioSpec _ratio
  by_cases h1 : (procStr o s1).length = 0
  · simp [validate_false_iff, h1]
  by_cases h2 : (procStr o s2).length = 0
  · simp [validate_false_iff, h1, h2]
  · simp [validate_false_iff, h1, h2, halg]
    rw [roundRat_eq _ _ (by omega)]
    congr 1
    push_cast
    ring

/-- C1 witness: the claim at `("abc", "axc")` with default options. -/
theorem C1_witness :
    ({} : ScoreOptions).ratio_alg = none ∧
      QRatio "abc" "axc" {} = ratioSpec "abc" "axc" {} :=
  ⟨rfl, C1_ratio_formula "abc" "axc" {} rfl⟩

/-! ### Claim C7 -/

/-- C7: for every pair of strings and every shared option configuration,
`WRatio` is at least `QRatio` of the same pair, because the base ratio
is among the values it maximises over. -/
theorem C7_wratio_ge_ratio (s1 s2 : String) (o : ScoreOptions) :
    QRatio s1 s2 o ≤ WRatio s1 s2 o := by
  unfold QRatio WRatio
  by_cases h1 : validate (procStr o s1) = false
  · simp [h1]
  by_cases h2 : validate (procStr o s2) = false
  · simp [h1, h2]
  simp only [if_neg h1, if_neg h2]
  have hB : _ratio (procStr o s1) (procStr o s2) { o with full_process := false } =
      _ratio (procStr o s1) (procStr o s2) o := rfl
  have h200 : ((200 : ℕ) : ℤ) = (200 : ℤ) := by norm_num
  rw [hB]
  split
  · calc _ratio (procStr o s1) (procStr o s2) o
        = roundRat (((200 : ℕ) : ℤ) * _ratio (procStr o s1) (procStr o s2) o) 200 :=
          (roundRat_cancel 200 _ (by omega)).symm
      _ ≤ _ := by
          apply roundRat_mono _ (by omega)
          rw [h200]
          exact le_max_left _ _
  · calc _ratio (procStr o s1) (procStr o s2) o
        = roundRat (((200 : ℕ) : ℤ) * _ratio (procStr o s1) (procStr o s2) o) 200 :=
          (roundRat_cancel 200 _ (by omega)).symm
      _ ≤ _ := by
          apply roundRat_mono _ (by omega)
          rw [h200]
          exact le_max_left _ _

/-! ### Claim C9 -/

/-- C9: `extract` fails immediately (with no partial result) exactly
when the candidate collection is empty, a supplied processor is not
callable, or a supplied scorer is not callable; an absent processor
behaves as the identity and an absent scorer as the base ratio. -/
theorem C9_extract_errors (query : String) (choices : List String)
    (procArg : Supplied (String → String)) (scorerArg : Supplied ScorerKind)
    (o : ScoreOptions) :
    ((∃ e, extract query choices procArg scorerArg o = Except.error e) ↔
      (choices = [] ∨ procArg = Supplied.notCallable ∨ scorerArg = Supplied.notCallable)) ∧
    extract query choices Supplied.absent scorerArg o =
      extract query choices (Supplied.given (fun x => x)) scorerArg o ∧
    extract query choices procArg Supplied.absent o =
      extract query choices procArg (Supplied.given ScorerKind.baseRatio) o := by
  refine ⟨?_, ?_, ?_⟩
  · unfold extract
    by_cases hc : choices.length = 0
    · simp [hc, List.length_eq_zero.mp hc]
    · have hne : ¬ choices = [] := by
        intro h
        subst h
        simp at hc
      cases procArg <;> cases scorerArg <;> simp [hc, hne]
  · unfold extract
    by_cases hc : choices.length = 0
    · simp [hc]
    · cases scorerArg <;> rfl
  · unfold extract
    by_cases hc : choices.length = 0
    · simp [hc]
    · cases procArg <;> rfl

/-! ### Claim C3 -/

theorem mem_insertResDesc (x a : String × ℤ × Nat) (l : List (String × ℤ × Nat)) :
    a ∈ insertResDesc x l ↔ a = x ∨ a ∈ l := by
  induction l with
  | nil => simp [insertResDesc]
  | cons y ys ih =>
    by_cases h : x.2.1 < y.2.1
    · simp only [insertResDesc, if_pos h, List.mem_cons, ih]
      tauto
    · simp only [insertResDesc, if_neg h, List.mem_cons]

theorem mem_sortResDesc (a : String × ℤ × Nat) (l : List (String × ℤ × Nat)) :
    a ∈ sortResDesc l ↔ a ∈ l := by
  induction l with
  | nil => simp [sortResDesc]
  | cons y ys ih =>
    show a ∈ insertResDesc y (sortResDesc ys) ↔ _
    rw [mem_insertResDesc]
    simp [ih]

theorem mem_extractCore_iff (query : String) (choices : List String)
    (procF : String → String) (scorerK : ScorerKind) (o : ScoreOptions)
    (v : String) (s : ℤ) (k : Nat) :
    (v, s, k) ∈ extractCore query choices procF scorerK o ↔
      (choices[k]? = some v ∧ s = extractScore query procF scorerK o v ∧
        (s : ℚ) > effCutoff o.cutoff) := by
  unfold extractCore
  rw [List.mem_filter]
  constructor
  · rintro ⟨hmem, hcond⟩
    rw [List.mem_map] at hmem
    obtain ⟨⟨ki, vi⟩, hkv, heq⟩ := hmem
    obtain ⟨h1, h2, h3⟩ : vi = v ∧ extractScore query procF scorerK o vi = s ∧ ki = k := by
      simpa using heq
    subst h1
    subst h3
    rw [List.mem_enum_iff_getElem?] at hkv
    simp only [decide_eq_true_eq] at hcond
    exact ⟨hkv, h2.symm, hcond⟩
  · rintro ⟨hget, hs, hgt⟩
    refine ⟨List.mem_map.mpr ⟨(k, v), List.mem_enum_iff_getElem?.mpr hget, by rw [← hs]⟩, ?_⟩
    simp only [decide_eq_true_eq]
    exact hgt

/-- C3 counterexample: with a supplied numeric cutoff of 0, a candidate
scoring exactly 0 is still retained (the code treats the falsy cutoff 0
as absent and replaces it by −1), although `0 > 0` is false — so
"retained iff score strictly greater than the supplied cutoff" fails at
cutoff 0. -/
theorem C3_counterexample :
    extract "a" ["b"] Supplied.absent Supplied.absent { cutoff := some 0 } =
      Except.ok [("b", 0, 0)] ∧ ¬ ((0 : ℚ) > (0 : ℚ)) :=
  ⟨by rfl, by decide⟩

/-- C3 (amended): for every candidate collection and every supplied
nonzero numeric cutoff `c` (with no limit and sorting enabled),
`extract` returns the retained results sorted by descending score, and a
triple `(candidate, score, key)` is retained iff `key` indexes that
candidate, `score` is its computed score, and the score is strictly
greater than `c`; a supplied cutoff of 0 is treated like an absent one,
i.e. as −1, so candidates scoring 0 are then included. -/
theorem C3_cutoff_filter (query : String) (choices : List String)
    (procF : String → String) (scorerK : ScorerKind) (o : ScoreOptions) (c : ℚ)
    (v : String) (s : ℤ) (k : Nat)
    (hne : choices ≠ []) (hcut : o.cutoff = some c) (hc : c ≠ 0)
    (hlim : o.limit = none) (huns : o.unsorted = false) :
    extract query choices (Supplied.given procF) (Supplied.given scorerK) o =
      Except.ok (sortResDesc (extractCore query choices procF scorerK o)) ∧
    ((v, s, k) ∈ sortResDesc (extractCore query choices procF scorerK o) ↔
      (choices[k]? = some v ∧ s = extractScore query procF scorerK o v ∧ (s : ℚ) > c)) := by
  constructor
  · unfold extract
    have hlen : ¬ choices.length = 0 := fun h => hne (List.length_eq_zero.mp h)
    rw [if_neg hlen]
    simp [hlim, huns]
  · rw [mem_sortResDesc, mem_extractCore_iff]
    simp [effCutoff, hcut, hc]

/-- C3 witness: the amended claim at query `"ab"`, candidates
`["ab", "xy"]`, cutoff 50, for the triple `("ab", 100, 0)`. -/
theorem C3_witness :
    extract "ab" ["ab", "xy"] (Supplied.given (fun x => x))
        (Supplied.given ScorerKind.baseRatio) { cutoff := some 50 } =
      Except.ok (sortResDesc (extractCore "ab" ["ab", "xy"] (fun x => x)
        ScorerKind.baseRatio { cutoff := some 50 })) ∧
    (("ab", (100 : ℤ), (0 : Nat)) ∈ sortResDesc (extractCore "ab" ["ab", "xy"] (fun x => x)
        ScorerKind.baseRatio { cutoff := some 50 }) ↔
      (["ab", "xy"][(0 : Nat)]? = some "ab" ∧
        (100 : ℤ) = extractScore "ab" (fun x => x) ScorerKind.baseRatio
          { cutoff := some 50 } "ab" ∧ ((100 : ℤ) : ℚ) > 50)) :=
  C3_cutoff_filter "ab" ["ab", "xy"] (fun x => x) ScorerKind.baseRatio
    { cutoff := some 50 } 50 "ab" 100 0 (by decide) rfl (by decide) rfl rfl

/-! ### Claim C6 -/

theorem jsMax_three (x y z : ℤ) : jsMax [x, y, z] = max (max x y) z := rfl

/-- C6: for valid non-empty inputs (and the default configuration with
no precomputed tokens and no `trySimple` extra pairing),
`token_set_ratio` scores the three pairings built from the sorted
intersection and differences of the two token sets with the selected
ratio function and returns their maximum. -/
theorem C6_token_set_pairings (s1 s2 : String) (o : ScoreOptions)
    (htok : o.tokens = none) (hsimple : o.trySimple = false)
    (h1 : validate (procStr o s1) = true) (h2 : validate (procStr o s2) = true) :
    token_set_ratio s1 s2 o = tokenSetSpec s1 s2 o := by
  unfold token_set_ratio tokenSetSpec _token_set
  simp only [h1, h2, Bool.true_eq_false, if_false, htok, hsimple, List.append_nil]
  exact jsMax_three _ _ _

/-- C6 witness: the claim at `("great big dog", "big dog barks")` with
default options. -/
theorem C6_witness :
    ({} : ScoreOptions).tokens = none ∧ ({} : ScoreOptions).trySimple = false ∧
      validate (procStr {} "great big dog") = true ∧
      validate (procStr {} "big dog barks") = true ∧
      token_set_ratio "great big dog" "big dog barks" {} =
        tokenSetSpec "great big dog" "big dog barks" {} :=
  ⟨rfl, rfl, by decide, by decide,
    C6_token_set_pairings "great big dog" "big dog barks" {} rfl rfl (by decide) (by decide)⟩

/-! ### Claim C10 -/

/-- C10 counterexample: `partial_ratio` is not symmetric — for the
equal-length pair `("bba", "abb")` it returns 80 one way and 67 the
other, because the block search is run on `(str1, str2)` in argument
order when the lengths are equal. -/
theorem C10_counterexample :
    partial_ratio "bba" "abb" {} = 80 ∧ partial_ratio "abb" "bba" {} = 67 ∧
      (80 : ℤ) ≠ 67 :=
  ⟨by decide, by decide, by decide⟩

/-- C10 (amended): `partial_ratio` is symmetric whenever the two
compared (preprocessed) strings have different lengths, since the
shorter/longer designation is then independent of argument order; at
equal lengths the results can differ. -/
theorem C10_symm_of_length_ne (s1 s2 : String) (o : ScoreOptions)
    (h : (procStr o s1).length ≠ (procStr o s2).length) :
    partial_ratio s1 s2 o = partial_ratio s2 s1 o := by
  unfold partial_ratio _partial_ratio
  by_cases h1 : validate (procStr o s1) = false <;>
    by_cases h2 : validate (procStr o s2) = false
  · simp [h1, h2]
  · simp [h1, h2]
  · simp [h1, h2]
  · rcases Nat.lt_or_ge (procStr o s1).length (procStr o s2).length with hlt | hge
    · have hc1 : (procStr o s1).length ≤ (procStr o s2).length := le_of_lt hlt
      have hc2 : ¬ ((procStr o s2).length ≤ (procStr o s1).length) := by omega
      simp [h1, h2, hc1, hc2]
    · have hc1 : ¬ ((procStr o s1).length ≤ (procStr o s2).length) := by omega
      have hc2 : (procStr o s2).length ≤ (procStr o s1).length := hge
      simp [h1, h2, hc1, hc2]

/-- C10 witness: the amended claim at `("ab", "xabx")`, whose processed
lengths differ. -/
theorem C10_witness :
    (procStr {} "ab").length ≠ (procStr {} "xabx").length ∧
      partial_ratio "ab" "xabx" {} = partial_ratio "xabx" "ab" {} :=
  ⟨by decide, C10_symm_of_length_ne "ab" "xabx" {} (by decide)⟩

/-! ### Claim C2 -/

theorem prGo_eq (shorter : String) (longerL : List Char) (o : ScoreOptions) :
    ∀ (blocks : List (Nat × Nat × Nat)) (acc : List ℤ),
      prGo shorter longerL o blocks acc =
        if (blocks.map (fun blk =>
              _ratio shorter (String.mk (partialWindow longerL shorter.length blk)) o)).any
            (fun r => decide (199 < 2 * r)) then 100
        else
          jsMax (acc ++ blocks.map (fun blk =>
            _ratio shorter (String.mk (partialWindow longerL shorter.length blk)) o)) := by
  intro blocks
  induction blocks with
  | nil => intro acc; simp [prGo]
  | cons blk rest ih =>
    intro acc
    simp only [prGo, List.map_cons, List.any_cons]
    by_cases hr :
        199 < 2 * _ratio shorter (String.mk (partialWindow longerL shorter.length blk)) o
    · simp [hr]
    · by_cases ha : (rest.map (fun blk =>
          _ratio shorter (String.mk (partialWindow longerL shorter.length blk)) o)).any
          (fun r => decide (199 < 2 * r)) = true
      · simp [hr, ih, ha]
      · simp [hr, ih, ha, List.append_assoc]

/-- C2 counterexample: for `("ba", "xxb")` (unchanged by preprocessing)
the block `(0, 2, 1)` is among the matching blocks, and its window of
the longer string has length 1, not `length(shorter) = 2` — the window
is clamped at the end of the longer string, so "window of length equal
to length(shorter)" fails as stated. -/
theorem C2_counterexample :
    procStr {} "ba" = "ba" ∧ procStr {} "xxb" = "xxb" ∧
      (0, 2, 1) ∈ matchingBlocks ("ba".toList) ("xxb".toList) ∧
      (partialWindow ("xxb".toList) ("ba".toList.length) (0, 2, 1)).length = 1 ∧
      "ba".toList.length = 2 :=
  ⟨by decide, by decide, by decide, by decide, by decide⟩

/-- C2 (amended): for valid non-empty inputs, `partial_ratio` designates
shorter and longer, computes the matching blocks, scores `shorter`
against the window of `longer` at start `max(0, j − i)` with length
`min(length shorter, length longer − start)` for each block `(i, j, k)`,
returns 100 as soon as a window scores above 99.5, and the maximum of
the window scores otherwise. -/
theorem C2_partial_windows (s1 s2 : String) (o : ScoreOptions)
    (h1 : validate (procStr o s1) = true) (h2 : validate (procStr o s2) = true) :
    partial_ratio s1 s2 o = partialSpec s1 s2 o := by
  unfold partial_ratio _partial_ratio partialSpec
  simp only [h1, h2, Bool.true_eq_false, if_false]
  rw [prGo_eq]
  simp

/-- C2 witness: the amended claim at `("abcd", "xxabcdyy")`. -/
theorem C2_witness :
    validate (procStr {} "abcd") = true ∧ validate (procStr {} "xxabcdyy") = true ∧
      partial_ratio "abcd" "xxabcdyy" {} = partialSpec "abcd" "xxabcdyy" {} :=
  ⟨by decide, by decide, C2_partial_windows "abcd" "xxabcdyy" {} (by decide) (by decide)⟩

/-! ### Claim C8: block lemmas -/

theorem flm_foldl_init_le (a b : List Char) (ahi bhi : Nat) :
    ∀ (l : List (Nat × Nat)) (init : Nat × Nat × Nat),
      init.2.2 ≤ (l.foldl (flmStep a b ahi bhi) init).2.2 := by
  intro l
  induction l with
  | nil => intro init; exact le_refl _
  | cons p t ih =>
    intro init
    refine le_trans ?_ (ih (flmStep a b ahi bhi init p))
    unfold flmStep
    split
    · next h => exact le_of_lt h
    · exact le_refl _

theorem flm_foldl_mem_le (a b : List Char) (ahi bhi : Nat) :
    ∀ (l : List (Nat × Nat)) (init : Nat × Nat × Nat) (p : Nat × Nat), p ∈ l →
      kAt a b ahi bhi p ≤ (l.foldl (flmStep a b ahi bhi) init).2.2 := by
  intro l
  induction l with
  | nil => intro init p hp; simp at hp
  | cons q t ih =>
    intro init p hp
    rcases List.mem_cons.mp hp with rfl | hp2
    · refine le_trans ?_ (flm_foldl_init_le a b ahi bhi t (flmStep a b ahi bhi init p))
      unfold flmStep
      split
      · exact le_refl _
      · next h => exact Nat.le_of_not_lt h
    · exact ih (flmStep a b ahi bhi init q) p hp2

theorem flm_foldl_shape (a b : List Char) (ahi bhi : Nat) :
    ∀ (l : List (Nat × Nat)) (init : Nat × Nat × Nat),
      l.foldl (flmStep a b ahi bhi) init = init ∨
        ∃ p ∈ l, l.foldl (flmStep a b ahi bhi) init = (p.1, p.2, kAt a b ahi bhi p) := by
  intro l
  induction l with
  | nil => intro init; exact Or.inl rfl
  | cons q t ih =>
    intro init
    rcases ih (flmStep a b ahi bhi init q) with h | ⟨p, hp, h⟩
    · rw [List.foldl_cons, h]
      unfold flmStep
      split
      · exact Or.inr ⟨q, List.mem_cons_self _ _, rfl⟩
      · exact Or.inl rfl
    · rw [List.foldl_cons, h]
      exact Or.inr ⟨p, List.mem_cons_of_mem _ hp, rfl⟩

theorem commonLen_append_self (a suf : List Char) : commonLen a (a ++ suf) = a.length := by
  induction a with
  | nil => rfl
  | cons x xs ih => simp [commonLen, ih]

theorem take_of_commonLen (a : List Char) : ∀ (y : List Char),
    a.length ≤ commonLen a y → y.take a.length = a := by
  induction a with
  | nil => intro y _; rfl
  | cons x xs ih =>
    intro y h
    cases y with
    | nil => simp [commonLen] at h
    | cons z zs =>
      by_cases hxz : x = z
      · subst hxz
        simp [commonLen] at h
        rw [List.length_cons, List.take_succ_cons, ih zs (by omega)]
      · simp [commonLen, hxz] at h

theorem mem_candPairs_of (alo ahi blo bhi i j : Nat)
    (h1 : alo ≤ i) (h2 : i < ahi) (h3 : blo ≤ j) (h4 : j < bhi) :
    (i, j) ∈ candPairs alo ahi blo bhi := by
  unfold candPairs
  rw [List.mem_flatMap]
  refine ⟨i, ?_, ?_⟩
  · rw [List.mem_range'_1]; omega
  · rw [List.mem_map]
    exact ⟨j, by rw [List.mem_range'_1]; omega, rfl⟩

theorem flmFindsFullMatch (a b : List Char) (ha : a ≠ []) (j0 : Nat)
    (hj0 : j0 + a.length ≤ b.length)
    (hpre : a.length ≤ commonLen a (List.drop j0 b)) :
    ∃ j, flm a b 0 a.length 0 b.length = (0, j, a.length) ∧
      a.length ≤ commonLen a (List.drop j b) := by
  have hla : 0 < a.length := List.length_pos.mpr ha
  have hmem : (0, j0) ∈ candPairs 0 a.length 0 b.length :=
    mem_candPairs_of _ _ _ _ _ _ (Nat.zero_le _) hla (Nat.zero_le _) (by omega)
  have hk0 : kAt a b a.length b.length (0, j0) = a.length := by
    unfold kAt
    simp only [List.drop_zero, Nat.sub_zero]
    have hinner : min a.length (b.length - j0) = a.length := Nat.min_eq_left (by omega)
    rw [hinner]
    exact Nat.min_eq_right hpre
  have hge : a.length ≤ (flm a b 0 a.length 0 b.length).2.2 := by
    have hle := flm_foldl_mem_le a b a.length b.length
      (candPairs 0 a.length 0 b.length) (0, 0, 0) (0, j0) hmem
    rw [hk0] at hle
    exact hle
  rcases flm_foldl_shape a b a.length b.length
      (candPairs 0 a.length 0 b.length) (0, 0, 0) with hsh | ⟨p, _, hsh⟩
  · exfalso
    have hflm : flm a b 0 a.length 0 b.length = (0, 0, 0) := hsh
    rw [hflm] at hge
    have h0 : a.length ≤ 0 := hge
    omega
  · have hflm : flm a b 0 a.length 0 b.length = (p.1, p.2, kAt a b a.length b.length p) := hsh
    have hk_ge : a.length ≤ kAt a b a.length b.length p := by rw [hflm] at hge; exact hge
    have hk_le1 : kAt a b a.length b.length p ≤ a.length - p.1 :=
      le_trans (Nat.min_le_right _ _) (Nat.min_le_left _ _)
    have hk_le2 : kAt a b a.length b.length p ≤ commonLen (a.drop p.1) (b.drop p.2) :=
      Nat.min_le_left _ _
    have hp1 : p.1 = 0 := by omega
    have hkeq : kAt a b a.length b.length p = a.length := by omega
    refine ⟨p.2, by rw [hflm, hp1, hkeq], ?_⟩
    rw [hp1, List.drop_zero] at hk_le2
    omega

theorem mblocksF_empty (f : Nat) (a b : List Char) (alo ahi blo bhi : Nat)
    (h : ahi ≤ alo) : mblocksF f a b alo ahi blo bhi = [] := by
  cases f with
  | zero => rfl
  | succ f =>
    have hc : candPairs alo ahi blo bhi = [] := by
      unfold candPairs
      rw [show ahi - alo = 0 from by omega]
      rfl
    have hflm : flm a b alo ahi blo bhi = (alo, blo, 0) := by
      unfold flm
      rw [hc]
      rfl
    simp [mblocksF, hflm]

theorem matchingBlocks_substring (a b : List Char) (ha : a ≠ []) (pre suf : List Char)
    (hb : b = pre ++ a ++ suf) :
    ∃ j, matchingBlocks a b = [(0, j, a.length), (a.length, b.length, 0)] ∧
      (List.drop j b).take a.length = a := by
  have hla : 0 < a.length := List.length_pos.mpr ha
  have hlen : b.length = pre.length + a.length + suf.length := by subst hb; simp; omega
  have hdrop : List.drop pre.length b = a ++ suf := by
    subst hb
    rw [List.append_assoc, List.drop_left]
  have hcl : a.length ≤ commonLen a (List.drop pre.length b) := by
    rw [hdrop, commonLen_append_self]
  obtain ⟨j, hflm, hj⟩ := flmFindsFullMatch a b ha pre.length (by omega) hcl
  refine ⟨j, ?_, take_of_commonLen a _ hj⟩
  unfold matchingBlocks
  have hstep : mblocksF (a.length + b.length + 1) a b 0 a.length 0 b.length =
      [(0, j, a.length)] := by
    simp only [mblocksF, hflm]
    rw [if_neg (by simpa using hla.ne')]
    rw [mblocksF_empty _ _ _ _ _ _ _ (le_refl 0),
      mblocksF_empty _ _ _ _ _ _ _ (by omega)]
    rfl
  rw [hstep]
  have hsort : sortBlocks [(0, j, a.length)] = [(0, j, a.length)] := rfl
  rw [hsort]
  by_cases hj0 : j = 0
  · subst hj0
    simp [mergeGo, hla.ne']
  · have hj0s : ¬ 0 = j := fun h => hj0 h.symm
    simp [mergeGo, hj0s, hla.ne']

/-- C8: whenever (in the form the ratio functions actually compare,
i.e. after the shared preprocessing) the first string is a non-empty
substring of the second, `partial_ratio` is at least `ratio`, under the
default edit-distance algorithm selector. -/
theorem C8_substring_partial_ge (s1 s2 : String) (o : ScoreOptions)
    (halg : o.ratio_alg = none) (h1 : (procStr o s1).length ≠ 0)
    (hsub : ∃ pre suf : List Char,
      (procStr o s2).toList = pre ++ (procStr o s1).toList ++ suf) :
    QRatio s1 s2 o ≤ partial_ratio s1 s2 o := by
  obtain ⟨pre, suf, hb⟩ := hsub
  have halg2 : ¬ o.ratio_alg = some "difflib" := by rw [halg]; simp
  have e1 : (procStr o s1).length = (procStr o s1).toList.length := rfl
  have e2 : (procStr o s2).length = (procStr o s2).toList.length := rfl
  have ha : (procStr o s1).toList ≠ [] := by
    intro h
    apply h1
    rw [e1, h]
    rfl
  have hlen12 : (procStr o s1).length ≤ (procStr o s2).length := by
    rw [e1, e2, hb]; simp; omega
  have h2 : (procStr o s2).length ≠ 0 := by
    have := List.length_pos.mpr ha
    rw [e2, hb]
    simp
    omega
  obtain ⟨j, hblocks, hwin⟩ :=
    matchingBlocks_substring (procStr o s1).toList (procStr o s2).toList ha pre suf hb
  have hv1 : ¬ validate (procStr o s1) = false := by simp [validate_false_iff, h1]
  have hv2 : ¬ validate (procStr o s2) = false := by simp [validate_false_iff, h2]
  have hwindow : partialWindow (procStr o s2).toList (procStr o s1).length
      (0, j, (procStr o s1).toList.length) = (procStr o s1).toList := by
    unfold partialWindow jsSubstring
    simp only [Nat.sub_zero, Nat.add_sub_cancel_left]
    rw [← e1] at hwin
    exact hwin
  have hpr : partial_ratio s1 s2 o = 100 := by
    unfold partial_ratio _partial_ratio
    simp only [if_neg hv1, if_neg hv2, if_pos hlen12]
    rw [hblocks]
    simp only [prGo, hwindow]
    have hmk : String.mk (procStr o s1).toList = procStr o s1 := rfl
    rw [hmk, ratio_self _ _ h1 halg2]
    norm_num
  rw [hpr]
  have hq : QRatio s1 s2 o = _ratio (procStr o s1) (procStr o s2) o := by
    unfold QRatio
    rw [if_neg hv1, if_neg hv2]
  rw [hq]
  exact ratio_le_100 _ _ _ halg2

/-- C8 witness: the claim at `("bcd", "abcde")` with default options. -/
theorem C8_witness :
    ({} : ScoreOptions).ratio_alg = none ∧ (procStr {} "bcd").length ≠ 0 ∧
      (∃ pre suf : List Char,
        (procStr {} "abcde").toList = pre ++ (procStr {} "bcd").toList ++ suf) ∧
      QRatio "bcd" "abcde" {} ≤ partial_ratio "bcd" "abcde" {} :=
  ⟨rfl, by decide, ⟨['a'], ['e'], by decide⟩,
    C8_substring_partial_ge "bcd" "abcde" {} rfl (by decide) ⟨['a'], ['e'], by decide⟩⟩


